import Mathlib

set_option maxRecDepth 4000

/-! Verification development for the ACO route optimizer: a shallow embedding of
the solver functions in src/lib/aco-algorithm.ts and of the run controller
ejecutarACO in src/pages/Index.tsx, with theorems about the properties stated
in the design document.

Embedding conventions: JS numbers are embedded as ℚ. A JS number[][] matrix is
embedded as its entry-lookup function ℕ → ℕ → ℚ, except where the source
consults the array length: the square pheromone matrix carries its size in a
structure, and the top-level distance matrix (whose .length the controller
checks) is a List (List ℚ) read through dGet. Out-of-range JS reads are
undefined and not exercised by any claim. Math.random() is an explicit stream
rand : ℕ → ℚ of values in [0, 1) with a threaded counter, and Math.pow is an
abstract parameter mpow : ℚ → ℚ → ℚ (powers with real exponents are not
rational-closed), so every theorem quantifying over mpow covers the actual
power function. Fallible code returns Option: the source's -1 sentinel for
"no next node" is none. -/

/-- A solved tour together with its cached total length (the source's
{ tour, length } records). -/
structure Solution where
  tour : List ℕ
  length : ℚ
deriving DecidableEq, Repr

/-- Agent state (interface Hormiga): partial tour, visited set, running
length, current node. -/
structure Hormiga where
  tour : List ℕ
  visited : Finset ℕ
  length : ℚ
  currentNode : ℕ
deriving DecidableEq

/-- Per-candidate report produced by the transition rule (interface
ProbabilityInfo). -/
structure ProbabilityInfo where
  nodeIndex : ℕ
  probability : ℚ
  pheromone : ℚ
  distance : ℚ
  heuristic : ℚ
deriving DecidableEq, Repr

/-- Solver parameters (interface ACOParams). -/
structure ACOParams where
  numHormigas : ℕ
  iteraciones : ℕ
  alpha : ℚ
  beta : ℚ
  rho : ℚ
  Q : ℚ
  minPheromone : ℚ

/-- A JS n×n numeric array: its length together with its entry lookup. -/
structure SquareMat where
  n : ℕ
  get : ℕ → ℕ → ℚ

/-- Entry m[i][j] of an array-of-arrays matrix. -/
def dGet (m : List (List ℚ)) (i j : ℕ) : ℚ :=
  (m.getD i []).getD j 0

/-- inicializarFeromonas: n×n matrix, diagonal 0, off-diagonal
max(initial, minPheromone). -/
def inicializarFeromonas (n : ℕ) (initial minPheromone : ℚ) : SquareMat :=
  ⟨n, fun i j => if i = j then 0 else max initial minPheromone⟩

/-- inicializarHormigas: numAnts fresh agents at startNode. -/
def inicializarHormigas (numAnts : ℕ) (startNode : ℕ) : List Hormiga :=
  List.replicate numAnts
    { tour := [startNode], visited := {startNode}, length := 0, currentNode := startNode }

/-- sumaConsecutiva: the loop of calcularLongitudRuta summing
m[tour[i]][tour[i+1]] over consecutive pairs. -/
def sumaConsecutiva (m : ℕ → ℕ → ℚ) : List ℕ → ℚ
  | a :: b :: rest => m a b + sumaConsecutiva m (b :: rest)
  | _ => 0

/-- calcularLongitudRuta: consecutive-pair sum plus the closing edge from the
last node back to the first (0 for the empty tour). -/
def calcularLongitudRuta (tour : List ℕ) (m : ℕ → ℕ → ℚ) : ℚ :=
  match tour with
  | [] => 0
  | x :: xs => sumaConsecutiva m (x :: xs) + m (List.getLastD xs x) x

/-- One symmetric pheromone deposit on edge (f, t): the two sequential clamped
writes pheromone[f][t] and pheromone[t][f] of depositarFeromonas. -/
def depositarArista (p : SquareMat) (f t : ℕ) (delta minPheromone : ℚ) : SquareMat :=
  let p1 : SquareMat :=
    ⟨p.n, fun i j => if i = f ∧ j = t then max (p.get f t + delta) minPheromone else p.get i j⟩
  ⟨p1.n, fun i j => if i = t ∧ j = f then max (p1.get t f + delta) minPheromone else p1.get i j⟩

/-- Edges a deposit walks: consecutive pairs of the tour, then the closing
edge (last, first) when the tour is non-empty. -/
def aristasTour (tour : List ℕ) : List (ℕ × ℕ) :=
  tour.zip tour.tail ++
    (match tour with
     | [] => []
     | x :: xs => [(List.getLastD xs x, x)])

/-- Deposit of one solution: skipped when length ≤ 0, otherwise delta = Q/length
added (clamped) on every edge of the tour. -/
def depositarSolucion (p : SquareMat) (sol : Solution) (Q minPheromone : ℚ) : SquareMat :=
  if sol.length ≤ 0 then p
  else
    (aristasTour sol.tour).foldl
      (fun acc e => depositarArista acc e.1 e.2 (Q / sol.length) minPheromone) p

/-- depositarFeromonas over a list of solutions, in order. -/
def depositarFeromonas (solutions : List Solution) (p : SquareMat) (Q minPheromone : ℚ) :
    SquareMat :=
  solutions.foldl (fun acc sol => depositarSolucion acc sol Q minPheromone) p

/-- evaporarFeromonas: every in-range off-diagonal cell decays to
max(cell·(1−rho), minPheromone). -/
def evaporarFeromonas (p : SquareMat) (rho minPheromone : ℚ) : SquareMat :=
  ⟨p.n, fun i j =>
    if i < p.n ∧ j < p.n ∧ i ≠ j then max (p.get i j * (1 - rho)) minPheromone
    else p.get i j⟩

/-- actualizarFeromonas: evaporate, then deposit. -/
def actualizarFeromonas (p : SquareMat) (solutions : List Solution)
    (rho Q minPheromone : ℚ) : SquareMat :=
  depositarFeromonas solutions (evaporarFeromonas p rho minPheromone) Q minPheromone

/-- Candidate enumeration of seleccionarSiguienteNodo: unvisited nodes j < n
with distance > 0, carrying the raw (unnormalized) value
pow(tau, alpha) · pow(1/distance, beta). -/
def candidatos (ant : Hormiga) (pher : SquareMat) (dist : ℕ → ℕ → ℚ)
    (alpha beta : ℚ) (n : ℕ) (mpow : ℚ → ℚ → ℚ) : List ProbabilityInfo :=
  (List.range n).filterMap fun j =>
    if j ∈ ant.visited then none
    else
      let tau := pher.get ant.currentNode j
      let distance := dist ant.currentNode j
      if distance ≤ 0 then none
      else
        some { nodeIndex := j, probability := mpow tau alpha * mpow (1 / distance) beta,
               pheromone := tau, distance := distance, heuristic := 1 / distance }

/-- The unvisited nodes among 0..n-1, in index order (the fallback's
unvisited array). -/
def noVisitados (ant : Hormiga) (n : ℕ) : List ℕ :=
  (List.range n).filter (fun j => j ∉ ant.visited)

/-- Roulette walk: first candidate whose cumulative probability reaches the
draw r, none if the walk falls off the end. -/
def ruleta (r : ℚ) : List ProbabilityInfo → ℚ → Option ℕ
  | [], _ => none
  | p :: rest, cumulative =>
    if r ≤ cumulative + p.probability then some p.nodeIndex
    else ruleta r rest (cumulative + p.probability)

/-- seleccionarSiguienteNodo. Returns (choice, probability list, next random
counter); the choice none is the source's -1 sentinel. The fallback branch
(no candidates or zero sum) draws a uniform index into the unvisited list and
rewrites each enumerated candidate's probability to 1/(number of candidates). -/
def seleccionarSiguienteNodo (ant : Hormiga) (pher : SquareMat) (dist : ℕ → ℕ → ℚ)
    (alpha beta : ℚ) (n : ℕ) (mpow : ℚ → ℚ → ℚ) (rand : ℕ → ℚ) (k : ℕ) :
    Option ℕ × List ProbabilityInfo × ℕ :=
  let probs := candidatos ant pher dist alpha beta n mpow
  let sum := (probs.map (fun p => p.probability)).sum
  if probs = [] ∨ sum = 0 then
    let unvisited := noVisitados ant n
    if unvisited = [] then (none, [], k)
    else
      (some (unvisited.getD (⌊rand k * unvisited.length⌋).toNat 0),
       probs.map (fun p => { p with probability := 1 / (probs.length : ℚ) }), k + 1)
  else
    let normalized := probs.map (fun p => { p with probability := p.probability / sum })
    match ruleta (rand k) normalized 0 with
    | some c => (some c, normalized, k + 1)
    | none => (some ((normalized.getLastD ⟨0, 0, 0, 0, 0⟩).nodeIndex), normalized, k + 1)

/-- Inner scan of runNearestNeighbor: index of the nearest unvisited node,
scanning indices in order and replacing the incumbent only on strict
improvement; the incumbent distance starts at Infinity (⊤). -/
def nodoMasCercano (dist : ℕ → ℕ → ℚ) (visited : Finset ℕ) (current n : ℕ) : Option ℕ :=
  ((List.range n).foldl
    (fun acc j =>
      if j ∉ visited ∧ (dist current j : WithTop ℚ) < acc.2
      then (some j, (dist current j : WithTop ℚ)) else acc)
    ((none : Option ℕ), (⊤ : WithTop ℚ))).1

/-- The while-loop of runNearestNeighbor, fuel-bounded; each pass adds one
node, so fuel n suffices. -/
def nnLoop (dist : ℕ → ℕ → ℚ) (n : ℕ) : ℕ → Finset ℕ → List ℕ → ℕ → List ℕ
  | 0, _, tour, _ => tour
  | fuel + 1, visited, tour, current =>
    if visited.card < n then
      match nodoMasCercano dist visited current n with
      | none => tour
      | some nearest => nnLoop dist n fuel (insert nearest visited) (tour ++ [nearest]) nearest
    else tour

/-- runNearestNeighbor: greedy construction from startNode over the
array-of-arrays distance matrix. -/
def runNearestNeighbor (distanceMatrix : List (List ℚ)) (startNode : ℕ) : Solution :=
  let n := distanceMatrix.length
  let tour := nnLoop (dGet distanceMatrix) n n {startNode} [startNode] startNode
  ⟨tour, calcularLongitudRuta tour (dGet distanceMatrix)⟩

/-- The 2-opt reversal of run2Opt:
slice(0, i+1) ++ reverse(slice(i+1, j+1)) ++ slice(j+1). -/
def twoOptSwap (t : List ℕ) (i j : ℕ) : List ℕ :=
  t.take (i + 1) ++ ((t.drop (i + 1)).take (j - i)).reverse ++ t.drop (j + 1)

/-- run2Opt's improvement test at pair (i, j):
dist[a][c] + dist[b][d] < dist[a][b] + dist[c][d] with a = t[i], b = t[i+1],
c = t[j], d = t[(j+1) mod len]. -/
def mejora2Opt (m : ℕ → ℕ → ℚ) (t : List ℕ) (i j : ℕ) : Bool :=
  let a := t.getD i 0
  let b := t.getD (i + 1) 0
  let c := t.getD j 0
  let d := t.getD ((j + 1) % t.length) 0
  m a c + m b d < m a b + m c d

/-- Inner j-loop of one run2Opt sweep: j runs from its start value to len−1,
applying each improving reversal and continuing on the modified tour. -/
def sweepJ (m : ℕ → ℕ → ℚ) (len i j : ℕ) (t : List ℕ) (imp : Bool) : List ℕ × Bool :=
  if _h : j < len then
    (if mejora2Opt m t i j then sweepJ m len i (j + 1) (twoOptSwap t i j) true
     else sweepJ m len i (j + 1) t imp)
  else (t, imp)
termination_by len - j

/-- Outer i-loop of one run2Opt sweep: i runs from its start value to len−2,
each starting the j-loop at i+2. -/
def sweepI (m : ℕ → ℕ → ℚ) (len i : ℕ) (t : List ℕ) (imp : Bool) : List ℕ × Bool :=
  if _h : i < len - 1 then
    let r := sweepJ m len i (i + 2) t imp
    sweepI m len (i + 1) r.1 r.2
  else (t, imp)
termination_by len - 1 - i

/-- The while(improved) loop of run2Opt, fuel-bounded on the number of
sweeps; a sweep that reports no improvement ends the loop. -/
def run2OptLoop (m : ℕ → ℕ → ℚ) : ℕ → List ℕ → List ℕ
  | 0, t => t
  | fuel + 1, t =>
    let r := sweepI m t.length 0 t false
    if r.2 then run2OptLoop m fuel r.1 else r.1

/-- run2Opt with explicit sweep fuel: the source sweeps until one full sweep
makes no change. -/
def run2Opt (fuel : ℕ) (tour : List ℕ) (m : ℕ → ℕ → ℚ) : Solution :=
  let t := run2OptLoop m fuel tour
  ⟨t, calcularLongitudRuta t m⟩

/-- Result a run hands back: the returned global best (null when none) and the
recorded best-per-iteration series. -/
structure RunResult where
  best : Option Solution
  series : List ℚ
deriving DecidableEq, Repr

/-- One agent's construction loop (Index.tsx: while visited.size < n), fuel
bounded; each successful step adds one node, so fuel n suffices (the C10
theorem shows the none branch is unreachable while nodes remain). -/
def construirTour (pher : SquareMat) (dist : ℕ → ℕ → ℚ) (alpha beta : ℚ) (n : ℕ)
    (mpow : ℚ → ℚ → ℚ) (rand : ℕ → ℚ) : ℕ → Hormiga → ℕ → Hormiga × ℕ
  | 0, ant, k => (ant, k)
  | fuel + 1, ant, k =>
    if ant.visited.card < n then
      match seleccionarSiguienteNodo ant pher dist alpha beta n mpow rand k with
      | (none, _, k1) => (ant, k1)
      | (some choice, _, k1) =>
        construirTour pher dist alpha beta n mpow rand fuel
          { ant with
            tour := ant.tour ++ [choice], visited := insert choice ant.visited,
            currentNode := choice } k1
    else (ant, k)

/-- Per-iteration agent phase: each ant in order builds its tour (threading
the random counter) and its Solution (tour copy plus computed length) is
pushed onto the solution list. -/
def construirSoluciones (pher : SquareMat) (dist : ℕ → ℕ → ℚ) (alpha beta : ℚ)
    (n : ℕ) (mpow : ℚ → ℚ → ℚ) (rand : ℕ → ℚ) (hormigas : List Hormiga) (k : ℕ) :
    List Solution × ℕ :=
  hormigas.foldl
    (fun acc ant =>
      let r := construirTour pher dist alpha beta n mpow rand n ant acc.2
      (acc.1 ++ [⟨r.1.tour, calcularLongitudRuta r.1.tour dist⟩], r.2))
    ([], k)

/-- The iteration's best: solutions[0], replaced on strict improvement while
scanning the list in order (first minimal solution wins ties). -/
def mejorDeIteracion (solutions : List Solution) : Solution :=
  solutions.foldl (fun best sol => if sol.length < best.length then sol else best)
    (solutions.headD ⟨[], 0⟩)

/-- The iteration loop of ejecutarACO. paused iter tells whether the pause
flag is set when iteration iter reaches its boundary check (and is released
later); capturedIsRunning is the value of state.isRunning captured by the
callback's closure — the poll body "if (!state.isRunning) return globalBest"
reads that stale capture, so a pause observed with a false capture returns the
current global best instead of resuming. -/
def bucleACO (dist : ℕ → ℕ → ℚ) (p : ACOParams) (mpow : ℚ → ℚ → ℚ) (rand : ℕ → ℚ)
    (paused : ℕ → Bool) (capturedIsRunning : Bool) (n : ℕ) :
    ℕ → ℕ → SquareMat → Option Solution → List ℚ → ℕ → RunResult
  | 0, _, _, globalBest, series, _ => ⟨globalBest, series⟩
  | fuel + 1, iter, pher, globalBest, series, k =>
    if paused iter && !capturedIsRunning then ⟨globalBest, series⟩
    else
      let r := construirSoluciones pher dist p.alpha p.beta n mpow rand
        (inicializarHormigas p.numHormigas 0) k
      let iterBest := mejorDeIteracion r.1
      let globalBest1 :=
        match globalBest with
        | none => some iterBest
        | some g => if iterBest.length < g.length then some iterBest else some g
      bucleACO dist p mpow rand paused capturedIsRunning n fuel (iter + 1)
        (actualizarFeromonas pher r.1 p.rho p.Q p.minPheromone)
        globalBest1 (series ++ [iterBest.length]) r.2

/-- ejecutarACO: reject an empty matrix before anything runs, otherwise
initialize pheromones and run params.iteraciones iterations. -/
def ejecutarACO (distanceMatrix : List (List ℚ)) (p : ACOParams)
    (mpow : ℚ → ℚ → ℚ) (rand : ℕ → ℚ) (paused : ℕ → Bool)
    (capturedIsRunning : Bool) : RunResult :=
  if distanceMatrix.length = 0 then ⟨none, []⟩
  else
    bucleACO (dGet distanceMatrix) p mpow rand paused capturedIsRunning
      distanceMatrix.length p.iteraciones 0
      (inicializarFeromonas distanceMatrix.length 1 p.minPheromone) none [] 0

/-- Lexicographic pair enumeration of a sweep: all (i, j) with i < len−1 and
i+2 ≤ j < len, rows in order, j ascending within a row. -/
def paresLex (len : ℕ) : List (ℕ × ℕ) :=
  (List.range (len - 1)).flatMap
    (fun i => (List.range' (i + 2) (len - (i + 2))).map (fun j => (i, j)))

/-- Modelled from the spec (reference for C7): the first improving pair of the
tour in lexicographic sweep order, if any. -/
def primeraMejora (m : ℕ → ℕ → ℚ) (t : List ℕ) : Option (ℕ × ℕ) :=
  (paresLex t.length).find? (fun pr => mejora2Opt m t pr.1 pr.2)

/-- Modelled from the spec (reference for C7): first-improvement 2-opt that
applies the reversal at the first improving pair and RESTARTS the sweep from
the beginning, stopping when a full sweep finds no improving pair;
fuel bounds the number of applied reversals. -/
def run2OptRestart (m : ℕ → ℕ → ℚ) : ℕ → List ℕ → List ℕ
  | 0, t => t
  | fuel + 1, t =>
    match primeraMejora m t with
    | none => t
    | some pr => run2OptRestart m fuel (twoOptSwap t pr.1 pr.2)

/-- One first-improvement pass over the lexicographic pair list that applies
each improving reversal and CONTINUES the pass on the modified tour, reporting
whether it changed anything (the amended C7 reference policy). -/
def pasadaContinua (m : ℕ → ℕ → ℚ) (len : ℕ) (t : List ℕ) (imp : Bool) :
    List ℕ × Bool :=
  (paresLex len).foldl
    (fun acc pr =>
      if mejora2Opt m acc.1 pr.1 pr.2 then (twoOptSwap acc.1 pr.1 pr.2, true) else acc)
    (t, imp)

/-- Passes of pasadaContinua repeated until one makes no change (fuel-bounded
on passes): the amended C7 reference procedure. -/
def run2OptContinua (m : ℕ → ℕ → ℚ) : ℕ → List ℕ → List ℕ
  | 0, t => t
  | fuel + 1, t =>
    let r := pasadaContinua m t.length t false
    if r.2 then run2OptContinua m fuel r.1 else r.1

/-- C8: on the 4-node matrix [[0,10,15,20],[10,0,35,25],[15,35,0,30],[20,25,30,0]],
runNearestNeighbor from node 0 returns exactly the tour [0,1,3,2] with
length 80. -/
theorem runNearestNeighbor_scenario_espol :
    runNearestNeighbor [[0, 10, 15, 20], [10, 0, 35, 25], [15, 35, 0, 30], [20, 25, 30, 0]] 0 =
      ⟨[0, 1, 3, 2], 80⟩ := of_decide_eq_true (by with_unfolding_all rfl)

/-- Counterexample to C6 as stated: on the asymmetric matrix
[[0,5,2,7],[6,0,0,1],[8,9,0,5],[5,5,9,0]], run2Opt maps the tour [0,1,2,3] of
length 15 to the tour [0,2,3,1] of length 18 — strictly longer. The sweep of
the output reports no further improvement, so the result is the fixed point
the source's unbounded while-loop returns, independent of the fuel. -/
theorem run2Opt_aumenta_longitud_cex :
    (run2Opt 5 [0, 1, 2, 3] (dGet [[0, 5, 2, 7], [6, 0, 0, 1], [8, 9, 0, 5], [5, 5, 9, 0]])).tour
        = [0, 2, 3, 1] ∧
    (run2Opt 5 [0, 1, 2, 3] (dGet [[0, 5, 2, 7], [6, 0, 0, 1], [8, 9, 0, 5], [5, 5, 9, 0]])).length
        = 18 ∧
    calcularLongitudRuta [0, 1, 2, 3] (dGet [[0, 5, 2, 7], [6, 0, 0, 1], [8, 9, 0, 5], [5, 5, 9, 0]])
        = 15 ∧
    (sweepI (dGet [[0, 5, 2, 7], [6, 0, 0, 1], [8, 9, 0, 5], [5, 5, 9, 0]]) 4 0 [0, 2, 3, 1] false).2
        = false ∧
    ¬ (run2Opt 5 [0, 1, 2, 3] (dGet [[0, 5, 2, 7], [6, 0, 0, 1], [8, 9, 0, 5], [5, 5, 9, 0]])).length
        ≤ calcularLongitudRuta [0, 1, 2, 3]
            (dGet [[0, 5, 2, 7], [6, 0, 0, 1], [8, 9, 0, 5], [5, 5, 9, 0]]) := of_decide_eq_true (by with_unfolding_all rfl)

/-- Counterexample to C7 as stated: on the asymmetric 5-node matrix below,
run2Opt (which continues its sweep after a reversal) returns [0,4,2,1,3], while
the spec's restart-on-first-improvement reference returns [0,2,1,4,3]; both
outputs admit no further improving pair, so both procedures have terminated and
the fuel is immaterial. -/
theorem run2Opt_restart_difiere_cex :
    (run2Opt 10 [0, 1, 2, 3, 4]
        (dGet [[0, 8, 6, 8, 7], [3, 0, 9, 4, 4], [2, 3, 0, 6, 9], [2, 6, 4, 0, 6], [5, 4, 1, 7, 0]])).tour
      = [0, 4, 2, 1, 3] ∧
    run2OptRestart
        (dGet [[0, 8, 6, 8, 7], [3, 0, 9, 4, 4], [2, 3, 0, 6, 9], [2, 6, 4, 0, 6], [5, 4, 1, 7, 0]])
        30 [0, 1, 2, 3, 4]
      = [0, 2, 1, 4, 3] ∧
    primeraMejora
        (dGet [[0, 8, 6, 8, 7], [3, 0, 9, 4, 4], [2, 3, 0, 6, 9], [2, 6, 4, 0, 6], [5, 4, 1, 7, 0]])
        [0, 4, 2, 1, 3] = none ∧
    primeraMejora
        (dGet [[0, 8, 6, 8, 7], [3, 0, 9, 4, 4], [2, 3, 0, 6, 9], [2, 6, 4, 0, 6], [5, 4, 1, 7, 0]])
        [0, 2, 1, 4, 3] = none ∧
    ([0, 4, 2, 1, 3] : List ℕ) ≠ [0, 2, 1, 4, 3] := of_decide_eq_true (by with_unfolding_all rfl)

/-- Counterexample to C4 as stated: with all outgoing distances zero, the
fallback branch of seleccionarSiguienteNodo fires with an empty candidate
list; the returned probability list is empty, not the uniform 1/2 per
remaining unvisited node (there are two: 1 and 2), although the choice itself
is drawn from the unvisited list. -/
theorem seleccionar_fallback_probs_cex :
    candidatos ⟨[0], {0}, 0, 0⟩ (inicializarFeromonas 3 1 (1 / 1000000))
        (dGet [[0, 0, 0], [0, 0, 0], [0, 0, 0]]) 1 1 3 (fun _ _ => 1) = [] ∧
    noVisitados ⟨[0], {0}, 0, 0⟩ 3 = [1, 2] ∧
    (seleccionarSiguienteNodo ⟨[0], {0}, 0, 0⟩ (inicializarFeromonas 3 1 (1 / 1000000))
        (dGet [[0, 0, 0], [0, 0, 0], [0, 0, 0]]) 1 1 3 (fun _ _ => 1) (fun _ => 1 / 10) 0).1
      = some 1 ∧
    (seleccionarSiguienteNodo ⟨[0], {0}, 0, 0⟩ (inicializarFeromonas 3 1 (1 / 1000000))
        (dGet [[0, 0, 0], [0, 0, 0], [0, 0, 0]]) 1 1 3 (fun _ _ => 1) (fun _ => 1 / 10) 0).2.1
      = [] ∧
    ¬ (∀ j ∈ noVisitados ⟨[0], {0}, 0, 0⟩ 3,
        ∃ pr ∈ (seleccionarSiguienteNodo ⟨[0], {0}, 0, 0⟩ (inicializarFeromonas 3 1 (1 / 1000000))
            (dGet [[0, 0, 0], [0, 0, 0], [0, 0, 0]]) 1 1 3 (fun _ _ => 1) (fun _ => 1 / 10) 0).2.1,
          pr.nodeIndex = j ∧ pr.probability = 1 / 2) := of_decide_eq_true (by with_unfolding_all rfl)

/-- Counterexample to C5 as stated: the 3×2 (non-square) matrix
[[0,5],[5,0],[1,1]] passes the only guard ejecutarACO has (emptiness), the run
starts, and a full iteration executes: the recorded best-per-iteration series
is non-empty and a best solution is returned. -/
theorem ejecutarACO_no_rechaza_no_cuadrada_cex :
    ([[0, 5], [5, 0], [1, 1]] : List (List ℚ)).length ≠ 0 ∧
    ¬ (∀ row ∈ ([[0, 5], [5, 0], [1, 1]] : List (List ℚ)), row.length = 3) ∧
    (ejecutarACO [[0, 5], [5, 0], [1, 1]] ⟨1, 1, 1, 1, 1 / 2, 1, 1 / 1000000⟩
        (fun _ _ => 1) (fun _ => 1 / 10) (fun _ => false) false).series ≠ [] ∧
    (ejecutarACO [[0, 5], [5, 0], [1, 1]] ⟨1, 1, 1, 1, 1 / 2, 1, 1 / 1000000⟩
        (fun _ _ => 1) (fun _ => 1 / 10) (fun _ => false) false).best ≠ none := of_decide_eq_true (by with_unfolding_all rfl)

/-- C3 evaluated at its failing input (supporting the code-bug finding): on a
3-node asymmetric matrix with one ant and two iterations, the uninterrupted
run returns the iteration-2 best of length 3, while the run whose pause flag
is observed at the boundary of iteration 1 returns early — the pause poll
reads the stale captured state.isRunning = false — with the iteration-1 best
of length 12. Pausing and resuming changes the final result. -/
theorem ejecutarACO_pausa_cambia_resultado :
    ejecutarACO [[0, 1, 1], [1, 0, 1], [10, 1, 0]] ⟨1, 2, 1, 1, 1 / 2, 1, 1 / 1000000⟩
        (fun _ _ => 1) (fun k => if k = 2 then 9 / 10 else 1 / 10) (fun _ => false) false
      = ⟨some ⟨[0, 2, 1], 3⟩, [12, 3]⟩ ∧
    ejecutarACO [[0, 1, 1], [1, 0, 1], [10, 1, 0]] ⟨1, 2, 1, 1, 1 / 2, 1, 1 / 1000000⟩
        (fun _ _ => 1) (fun k => if k = 2 then 9 / 10 else 1 / 10) (fun it => it == 1) false
      = ⟨some ⟨[0, 1, 2], 12⟩, [12]⟩ ∧
    (⟨some ⟨[0, 1, 2], 12⟩, [12]⟩ : RunResult) ≠ ⟨some ⟨[0, 2, 1], 3⟩, [12, 3]⟩ := of_decide_eq_true (by with_unfolding_all rfl)

lemma depositarArista_floor (minP δ : ℚ) (n : ℕ) (p : SquareMat) (f t : ℕ)
    (h : ∀ i, i < n → ∀ j, j < n → i ≠ j → minP ≤ p.get i j) :
    ∀ i, i < n → ∀ j, j < n → i ≠ j → minP ≤ (depositarArista p f t δ minP).get i j := by
  intro i hi j hj hij
  unfold depositarArista
  dsimp only
  split
  · exact le_max_right _ _
  · split
    · exact le_max_right _ _
    · exact h i hi j hj hij

lemma depositarAristas_floor (minP δ : ℚ) (n : ℕ) :
    ∀ (es : List (ℕ × ℕ)) (p : SquareMat),
      (∀ i, i < n → ∀ j, j < n → i ≠ j → minP ≤ p.get i j) →
      ∀ i, i < n → ∀ j, j < n → i ≠ j →
        minP ≤ (es.foldl (fun acc e => depositarArista acc e.1 e.2 δ minP) p).get i j := by
  intro es
  induction es with
  | nil => intro p h; exact h
  | cons e es ih =>
    intro p h
    exact ih _ (depositarArista_floor minP δ n p e.1 e.2 h)

lemma depositarSolucion_floor (minP Q : ℚ) (n : ℕ) (p : SquareMat) (sol : Solution)
    (h : ∀ i, i < n → ∀ j, j < n → i ≠ j → minP ≤ p.get i j) :
    ∀ i, i < n → ∀ j, j < n → i ≠ j → minP ≤ (depositarSolucion p sol Q minP).get i j := by
  unfold depositarSolucion
  split
  · exact h
  · exact depositarAristas_floor minP _ n _ p h

lemma depositarFeromonas_floor (minP Q : ℚ) (n : ℕ) :
    ∀ (sols : List Solution) (p : SquareMat),
      (∀ i, i < n → ∀ j, j < n → i ≠ j → minP ≤ p.get i j) →
      ∀ i, i < n → ∀ j, j < n → i ≠ j →
        minP ≤ (depositarFeromonas sols p Q minP).get i j := by
  intro sols
  induction sols with
  | nil => intro p h; exact h
  | cons sol sols ih =>
    intro p h
    exact ih _ (depositarSolucion_floor minP Q n p sol h)

lemma evaporarFeromonas_floor (minP rho : ℚ) (p : SquareMat) :
    ∀ i, i < p.n → ∀ j, j < p.n → i ≠ j →
      minP ≤ (evaporarFeromonas p rho minP).get i j := by
  intro i hi j hj hij
  unfold evaporarFeromonas
  dsimp only
  rw [if_pos ⟨hi, hj, hij⟩]
  exact le_max_right _ _

lemma depositarFeromonas_floor_n (minP Q : ℚ) (sols : List Solution) (p : SquareMat)
    (h : ∀ i, i < p.n → ∀ j, j < p.n → i ≠ j → minP ≤ p.get i j) :
    ∀ i, i < p.n → ∀ j, j < p.n → i ≠ j →
      minP ≤ (depositarFeromonas sols p Q minP).get i j :=
  depositarFeromonas_floor minP Q p.n sols p h

/-- C2: inicializarFeromonas returns an n×n matrix with zero diagonal and every
off-diagonal cell equal to max(initial, minPheromone), hence at least
minPheromone; and actualizarFeromonas (evaporate then deposit) with
rho ∈ [0,1], Q > 0 and minPheromone > 0 keeps every in-range off-diagonal cell
of a matrix whose off-diagonal cells are at least minPheromone at or above
minPheromone. -/
theorem inicializar_actualizar_piso_feromonas
    (n : ℕ) (v minP : ℚ) (hminP : 0 < minP)
    (p : SquareMat) (sols : List Solution) (rho Q : ℚ)
    (hrho0 : 0 ≤ rho) (hrho1 : rho ≤ 1) (hQ : 0 < Q)
    (hpiso : ∀ i, i < p.n → ∀ j, j < p.n → i ≠ j → minP ≤ p.get i j) :
    ((inicializarFeromonas n v minP).n = n ∧
     (∀ i, i < n → ∀ j, j < n → i = j → (inicializarFeromonas n v minP).get i j = 0) ∧
     (∀ i, i < n → ∀ j, j < n → i ≠ j →
        (inicializarFeromonas n v minP).get i j = max v minP ∧
        minP ≤ (inicializarFeromonas n v minP).get i j)) ∧
    (∀ i, i < p.n → ∀ j, j < p.n → i ≠ j →
       minP ≤ (actualizarFeromonas p sols rho Q minP).get i j) := by
  refine ⟨⟨rfl, ?_, ?_⟩, ?_⟩
  · intro i _ j _ hij
    simp [inicializarFeromonas, hij]
  · intro i _ j _ hij
    constructor
    · simp [inicializarFeromonas, hij]
    · simp only [inicializarFeromonas, if_neg hij]
      exact le_max_right _ _
  · intro i hi j hj hij
    unfold actualizarFeromonas
    have hev : (evaporarFeromonas p rho minP).n = p.n := rfl
    refine depositarFeromonas_floor minP Q p.n sols _ ?_ i hi j hj hij
    intro a ha b hb hab
    exact evaporarFeromonas_floor minP rho p a ha b hb hab

/-- Witness for the C2 theorem at a concrete instance. -/
theorem inicializar_actualizar_piso_feromonas_witness :
    (0 < (1/2 : ℚ) ∧ 0 ≤ (1/4 : ℚ) ∧ (1/4 : ℚ) ≤ 1 ∧ 0 < (2 : ℚ) ∧
     (∀ i, i < (inicializarFeromonas 2 3 (1/2)).n →
        ∀ j, j < (inicializarFeromonas 2 3 (1/2)).n → i ≠ j →
          (1/2 : ℚ) ≤ (inicializarFeromonas 2 3 (1/2)).get i j)) ∧
    (((inicializarFeromonas 2 1 (1/2)).n = 2 ∧
      (∀ i, i < 2 → ∀ j, j < 2 → i = j → (inicializarFeromonas 2 1 (1/2)).get i j = 0) ∧
      (∀ i, i < 2 → ∀ j, j < 2 → i ≠ j →
         (inicializarFeromonas 2 1 (1/2)).get i j = max 1 (1/2) ∧
         (1/2 : ℚ) ≤ (inicializarFeromonas 2 1 (1/2)).get i j)) ∧
     (∀ i, i < (inicializarFeromonas 2 3 (1/2)).n →
        ∀ j, j < (inicializarFeromonas 2 3 (1/2)).n → i ≠ j →
          (1/2 : ℚ) ≤ (actualizarFeromonas (inicializarFeromonas 2 3 (1/2))
            [⟨[0, 1], 4⟩] (1/4) 2 (1/2)).get i j)) :=
  ⟨⟨of_decide_eq_true (by with_unfolding_all rfl),
    of_decide_eq_true (by with_unfolding_all rfl),
    of_decide_eq_true (by with_unfolding_all rfl),
    of_decide_eq_true (by with_unfolding_all rfl),
    of_decide_eq_true (by with_unfolding_all rfl)⟩,
   inicializar_actualizar_piso_feromonas 2 1 (1/2)
     (of_decide_eq_true (by with_unfolding_all rfl))
     (inicializarFeromonas 2 3 (1/2)) [⟨[0, 1], 4⟩] (1/4) 2
     (of_decide_eq_true (by with_unfolding_all rfl))
     (of_decide_eq_true (by with_unfolding_all rfl))
     (of_decide_eq_true (by with_unfolding_all rfl))
     (of_decide_eq_true (by with_unfolding_all rfl))⟩

/-- C5 (amended): an empty distance matrix is rejected before any iteration —
ejecutarACO returns a null best and an empty series with no solver state
consulted; squareness is not validated (see the counterexample). -/
theorem ejecutarACO_matriz_vacia_rechazada
    (dm : List (List ℚ)) (p : ACOParams) (mpow : ℚ → ℚ → ℚ) (rand : ℕ → ℚ)
    (paused : ℕ → Bool) (cap : Bool) (hdm : dm.length = 0) :
    ejecutarACO dm p mpow rand paused cap = ⟨none, []⟩ := by
  unfold ejecutarACO
  rw [if_pos hdm]

/-- Witness for the C5 amended theorem at the empty matrix. -/
theorem ejecutarACO_matriz_vacia_rechazada_witness :
    ([] : List (List ℚ)).length = 0 ∧
    ejecutarACO [] ⟨1, 1, 1, 1, 1, 1, 1⟩ (fun _ _ => 1) (fun _ => 0) (fun _ => false) false
      = ⟨none, []⟩ :=
  ⟨rfl, ejecutarACO_matriz_vacia_rechazada [] ⟨1, 1, 1, 1, 1, 1, 1⟩
    (fun _ _ => 1) (fun _ => 0) (fun _ => false) false rfl⟩

/-- C4 (amended): in the fallback of seleccionarSiguienteNodo (no candidate or
zero probability sum) with unvisited nodes remaining and a draw in [0,1), the
choice is the uniformly drawn entry of the unvisited list — the floor index is
in range — but the returned probability list is the enumerated candidate list
with each probability rewritten to 1/(number of candidates), not a uniform
1/count report over the unvisited nodes (in particular it is empty when no
candidate was enumerated). -/
theorem seleccionar_fallback_amended
    (ant : Hormiga) (pher : SquareMat) (dist : ℕ → ℕ → ℚ) (alpha beta : ℚ) (n : ℕ)
    (mpow : ℚ → ℚ → ℚ) (rand : ℕ → ℚ) (k : ℕ)
    (hfb : candidatos ant pher dist alpha beta n mpow = [] ∨
      ((candidatos ant pher dist alpha beta n mpow).map (fun p => p.probability)).sum = 0)
    (hnv : noVisitados ant n ≠ [])
    (hr0 : 0 ≤ rand k) (hr1 : rand k < 1) :
    (⌊rand k * (noVisitados ant n).length⌋).toNat < (noVisitados ant n).length ∧
    (seleccionarSiguienteNodo ant pher dist alpha beta n mpow rand k).1 =
      some ((noVisitados ant n).getD (⌊rand k * (noVisitados ant n).length⌋).toNat 0) ∧
    (seleccionarSiguienteNodo ant pher dist alpha beta n mpow rand k).2.1 =
      (candidatos ant pher dist alpha beta n mpow).map
        (fun p => { p with probability :=
          1 / ((candidatos ant pher dist alpha beta n mpow).length : ℚ) }) ∧
    (seleccionarSiguienteNodo ant pher dist alpha beta n mpow rand k).2.2 = k + 1 := by
  have hlen : 0 < (noVisitados ant n).length := List.length_pos.mpr hnv
  have hup : (⌊rand k * (noVisitados ant n).length⌋ : ℤ) <
      ((noVisitados ant n).length : ℤ) := by
    rw [Int.floor_lt]
    push_cast
    exact mul_lt_of_lt_one_left (by exact_mod_cast hlen) hr1
  have hlo : (0 : ℤ) ≤ ⌊rand k * (noVisitados ant n).length⌋ :=
    Int.floor_nonneg.mpr (mul_nonneg hr0 (by positivity))
  refine ⟨by omega, ?_, ?_, ?_⟩ <;>
    · unfold seleccionarSiguienteNodo
      simp only [hfb, if_pos, if_neg hnv]

/-- Witness for the C4 amended theorem at a concrete degenerate state. -/
theorem seleccionar_fallback_amended_witness :
    (candidatos ⟨[0], {0}, 0, 0⟩ (inicializarFeromonas 3 1 (1/2))
        (dGet [[0, 0, 0], [0, 0, 0], [0, 0, 0]]) 1 1 3 (fun _ _ => 1) = [] ∨
      ((candidatos ⟨[0], {0}, 0, 0⟩ (inicializarFeromonas 3 1 (1/2))
        (dGet [[0, 0, 0], [0, 0, 0], [0, 0, 0]]) 1 1 3 (fun _ _ => 1)).map
          (fun p => p.probability)).sum = 0) ∧
    noVisitados ⟨[0], {0}, 0, 0⟩ 3 ≠ [] ∧
    (0 : ℚ) ≤ (fun _ : ℕ => (1 : ℚ)/10) 0 ∧ ((fun _ : ℕ => (1 : ℚ)/10) 0) < 1 ∧
    ((⌊(fun _ : ℕ => (1 : ℚ)/10) 0 * (noVisitados ⟨[0], {0}, 0, 0⟩ 3).length⌋).toNat <
        (noVisitados ⟨[0], {0}, 0, 0⟩ 3).length ∧
     (seleccionarSiguienteNodo ⟨[0], {0}, 0, 0⟩ (inicializarFeromonas 3 1 (1/2))
        (dGet [[0, 0, 0], [0, 0, 0], [0, 0, 0]]) 1 1 3 (fun _ _ => 1)
        (fun _ => (1 : ℚ)/10) 0).1 =
      some ((noVisitados ⟨[0], {0}, 0, 0⟩ 3).getD
        (⌊(fun _ : ℕ => (1 : ℚ)/10) 0 * (noVisitados ⟨[0], {0}, 0, 0⟩ 3).length⌋).toNat 0) ∧
     (seleccionarSiguienteNodo ⟨[0], {0}, 0, 0⟩ (inicializarFeromonas 3 1 (1/2))
        (dGet [[0, 0, 0], [0, 0, 0], [0, 0, 0]]) 1 1 3 (fun _ _ => 1)
        (fun _ => (1 : ℚ)/10) 0).2.1 =
      (candidatos ⟨[0], {0}, 0, 0⟩ (inicializarFeromonas 3 1 (1/2))
        (dGet [[0, 0, 0], [0, 0, 0], [0, 0, 0]]) 1 1 3 (fun _ _ => 1)).map
        (fun p => { p with probability :=
          1 / ((candidatos ⟨[0], {0}, 0, 0⟩ (inicializarFeromonas 3 1 (1/2))
            (dGet [[0, 0, 0], [0, 0, 0], [0, 0, 0]]) 1 1 3 (fun _ _ => 1)).length : ℚ) }) ∧
     (seleccionarSiguienteNodo ⟨[0], {0}, 0, 0⟩ (inicializarFeromonas 3 1 (1/2))
        (dGet [[0, 0, 0], [0, 0, 0], [0, 0, 0]]) 1 1 3 (fun _ _ => 1)
        (fun _ => (1 : ℚ)/10) 0).2.2 = 0 + 1) :=
  ⟨Or.inl (of_decide_eq_true (by with_unfolding_all rfl)),
   of_decide_eq_true (by with_unfolding_all rfl),
   of_decide_eq_true (by with_unfolding_all rfl),
   of_decide_eq_true (by with_unfolding_all rfl),
   seleccionar_fallback_amended ⟨[0], {0}, 0, 0⟩ (inicializarFeromonas 3 1 (1/2))
     (dGet [[0, 0, 0], [0, 0, 0], [0, 0, 0]]) 1 1 3 (fun _ _ => 1)
     (fun _ => (1 : ℚ)/10) 0
     (Or.inl (of_decide_eq_true (by with_unfolding_all rfl)))
     (of_decide_eq_true (by with_unfolding_all rfl))
     (of_decide_eq_true (by with_unfolding_all rfl))
     (of_decide_eq_true (by with_unfolding_all rfl))⟩

lemma getLast?_eq_getLastD {α : Type} (x : α) (xs : List α) :
    (x :: xs).getLast? = some (List.getLastD xs x) := by
  induction xs generalizing x with
  | nil => rfl
  | cons b r ih => rw [List.getLast?_cons_cons, ih b, List.getLastD_cons]

/-- The closing summand of calcularLongitudRuta viewed through optional
endpoints: the edge from a to b when both exist, 0 otherwise. -/
def enlace (m : ℕ → ℕ → ℚ) : Option ℕ → Option ℕ → ℚ
  | some a, some b => m a b
  | _, _ => 0

lemma enlace_comm (m : ℕ → ℕ → ℚ) (hsym : ∀ i j, m i j = m j i) (a b : Option ℕ) :
    enlace m a b = enlace m b a := by
  cases a <;> cases b <;> simp only [enlace]
  exact hsym _ _

lemma sumaConsecutiva_append (m : ℕ → ℕ → ℚ) (u v : List ℕ) :
    sumaConsecutiva m (u ++ v) =
      sumaConsecutiva m u + sumaConsecutiva m v + enlace m u.getLast? v.head? := by
  induction u with
  | nil =>
    cases v with
    | nil => simp [sumaConsecutiva, enlace]
    | cons b r => simp [sumaConsecutiva, enlace]
  | cons a u' ih =>
    cases u' with
    | nil =>
      cases v with
      | nil => simp [sumaConsecutiva, enlace]
      | cons b r =>
        show m a b + sumaConsecutiva m (b :: r) = _
        simp [sumaConsecutiva, enlace]
        ring
    | cons c r =>
      show m a c + sumaConsecutiva m ((c :: r) ++ v) = _
      rw [ih, List.getLast?_cons_cons]
      show _ = m a c + sumaConsecutiva m (c :: r) + sumaConsecutiva m v + _
      ring

lemma calcularLongitudRuta_eq_enlace (t : List ℕ) (m : ℕ → ℕ → ℚ) :
    calcularLongitudRuta t m = sumaConsecutiva m t + enlace m t.getLast? t.head? := by
  cases t with
  | nil => simp [calcularLongitudRuta, sumaConsecutiva, enlace]
  | cons x xs =>
    rw [calcularLongitudRuta, getLast?_eq_getLastD]
    rfl

lemma calcularLongitudRuta_rotate_one (l : List ℕ) (m : ℕ → ℕ → ℚ) :
    calcularLongitudRuta (l.rotate 1) m = calcularLongitudRuta l m := by
  cases l with
  | nil => rfl
  | cons x xs =>
    rw [List.rotate_cons_succ, List.rotate_zero]
    cases xs with
    | nil => rfl
    | cons y ys =>
      rw [calcularLongitudRuta_eq_enlace, calcularLongitudRuta_eq_enlace,
        sumaConsecutiva_append, List.getLast?_concat, List.getLast?_cons_cons,
        getLast?_eq_getLastD]
      show sumaConsecutiva m (y :: ys) + 0 + m (List.getLastD ys y) x + m x y
        = m x y + sumaConsecutiva m (y :: ys) + m (List.getLastD ys y) x
      ring

lemma calcularLongitudRuta_rotate (k : ℕ) :
    ∀ (l : List ℕ) (m : ℕ → ℕ → ℚ),
      calcularLongitudRuta (l.rotate k) m = calcularLongitudRuta l m := by
  induction k with
  | zero => intro l m; rw [List.rotate_zero]
  | succ k ih =>
    intro l m
    have h1 : l.rotate (k + 1) = (l.rotate 1).rotate k := by
      rw [List.rotate_rotate, Nat.add_comm]
    rw [h1, ih (l.rotate 1) m, calcularLongitudRuta_rotate_one]

lemma sumaConsecutiva_reverse (m : ℕ → ℕ → ℚ) (hsym : ∀ i j, m i j = m j i) :
    ∀ l : List ℕ, sumaConsecutiva m l.reverse = sumaConsecutiva m l := by
  intro l
  induction l with
  | nil => rfl
  | cons a l' ih =>
    rw [List.reverse_cons, sumaConsecutiva_append, List.getLast?_reverse, ih]
    cases l' with
    | nil => simp [sumaConsecutiva, enlace]
    | cons b r =>
      show sumaConsecutiva m (b :: r) + 0 + m b a = m a b + sumaConsecutiva m (b :: r)
      rw [hsym b a]
      ring

/-- C9: calcularLongitudRuta is invariant under every cyclic rotation of the
tour for every distance matrix, and additionally invariant under full reversal
whenever the matrix is symmetric. -/
theorem calcularLongitudRuta_rotacion_y_reversa :
    (∀ (tour : List ℕ) (k : ℕ) (m : ℕ → ℕ → ℚ),
       calcularLongitudRuta (tour.rotate k) m = calcularLongitudRuta tour m) ∧
    (∀ (tour : List ℕ) (m : ℕ → ℕ → ℚ), (∀ i j, m i j = m j i) →
       calcularLongitudRuta tour.reverse m = calcularLongitudRuta tour m) := by
  constructor
  · intro tour k m
    exact calcularLongitudRuta_rotate k tour m
  · intro tour m hsym
    rw [calcularLongitudRuta_eq_enlace, calcularLongitudRuta_eq_enlace,
      sumaConsecutiva_reverse m hsym, List.getLast?_reverse, List.head?_reverse,
      enlace_comm m hsym]

/-- Witness for the C9 theorem at a concrete tour and a concrete symmetric
matrix. -/
theorem calcularLongitudRuta_rotacion_y_reversa_witness :
    (∀ i j, ((i * j : ℕ) : ℚ) = ((j * i : ℕ) : ℚ)) ∧
    calcularLongitudRuta ([0, 1, 2].rotate 1) (fun i j => ((i * j : ℕ) : ℚ))
      = calcularLongitudRuta [0, 1, 2] (fun i j => ((i * j : ℕ) : ℚ)) ∧
    calcularLongitudRuta ([0, 1, 2] : List ℕ).reverse (fun i j => ((i * j : ℕ) : ℚ))
      = calcularLongitudRuta [0, 1, 2] (fun i j => ((i * j : ℕ) : ℚ)) :=
  ⟨fun i j => by show ((i * j : ℕ) : ℚ) = ((j * i : ℕ) : ℚ); rw [Nat.mul_comm],
   calcularLongitudRuta_rotacion_y_reversa.1 [0, 1, 2] 1 (fun i j => ((i * j : ℕ) : ℚ)),
   calcularLongitudRuta_rotacion_y_reversa.2 [0, 1, 2] (fun i j => ((i * j : ℕ) : ℚ))
     (fun i j => by show ((i * j : ℕ) : ℚ) = ((j * i : ℕ) : ℚ); rw [Nat.mul_comm])⟩

lemma getElem?_eq_some_getD (l : List ℕ) (i : ℕ) (h : i < l.length) :
    l[i]? = some (l.getD i 0) := by
  rw [List.getD_eq_getElem?_getD, List.getElem?_eq_getElem h]
  rfl

lemma head?_append_of_ne_nil (u v : List ℕ) (hu : u ≠ []) :
    (u ++ v).head? = u.head? := by
  cases u with
  | nil => exact absurd rfl hu
  | cons a l => rfl

lemma getLast?_append_of_ne_nil (u v : List ℕ) (hv : v ≠ []) :
    (u ++ v).getLast? = v.getLast? := by
  rw [List.getLast?_append]
  cases hl : v.getLast? with
  | none => exact absurd (List.getLast?_eq_none_iff.mp hl) hv
  | some a => rfl

/-- Cyclic length of a three-segment tour with non-empty first and middle
segments, expressed by segment sums and the four junction edges. -/
lemma calcular_tres_segmentos (m : ℕ → ℕ → ℚ) (pre mid post : List ℕ)
    (hpre : pre ≠ []) (hmid : mid ≠ []) :
    calcularLongitudRuta (pre ++ mid ++ post) m =
      sumaConsecutiva m pre + sumaConsecutiva m mid + sumaConsecutiva m post
        + enlace m pre.getLast? mid.head? + enlace m mid.getLast? post.head?
        + enlace m (if post = [] then mid.getLast? else post.getLast?) pre.head? := by
  rw [calcularLongitudRuta_eq_enlace, List.append_assoc, sumaConsecutiva_append,
    sumaConsecutiva_append]
  rw [head?_append_of_ne_nil mid post hmid, head?_append_of_ne_nil pre (mid ++ post) hpre]
  cases hp : post with
  | nil =>
    subst hp
    rw [List.append_nil, getLast?_append_of_ne_nil pre mid hmid]
    have h0 : enlace m mid.getLast? ([] : List ℕ).head? = 0 := by
      cases mid.getLast? <;> rfl
    have h1 : sumaConsecutiva m [] = 0 := rfl
    rw [if_pos rfl, h0, h1]
    ring
  | cons q qs =>
    rw [← hp]
    have hpost : post ≠ [] := by rw [hp]; exact List.cons_ne_nil q qs
    rw [getLast?_append_of_ne_nil pre (mid ++ post) (by
      cases mid with
      | nil => exact absurd rfl hmid
      | cons a l => exact List.append_ne_nil_of_left_ne_nil (List.cons_ne_nil a l) post)]
    rw [getLast?_append_of_ne_nil mid post hpost]
    rw [if_neg hpost]
    ring

lemma enlace_some_some (m : ℕ → ℕ → ℚ) (a b : ℕ) :
    enlace m (some a) (some b) = m a b := rfl

/-- Length change of one 2-opt reversal inside the sweep's index range for a
symmetric matrix: exactly (dist[a][c] + dist[b][d]) − (dist[a][b] + dist[c][d]). -/
lemma twoOptSwap_delta (m : ℕ → ℕ → ℚ) (hsym : ∀ i j, m i j = m j i)
    (t : List ℕ) (i j : ℕ)
    (hi1 : i + 1 < t.length) (hij : i + 2 ≤ j) (hj : j < t.length) :
    calcularLongitudRuta (twoOptSwap t i j) m =
      calcularLongitudRuta t m
        + (m (t.getD i 0) (t.getD j 0) + m (t.getD (i + 1) 0) (t.getD ((j + 1) % t.length) 0))
        - (m (t.getD i 0) (t.getD (i + 1) 0) + m (t.getD j 0) (t.getD ((j + 1) % t.length) 0)) := by
  set pre := t.take (i + 1) with hpre_def
  set mid := (t.drop (i + 1)).take (j - i) with hmid_def
  set post := t.drop (j + 1) with hpost_def
  have hms : mid ++ post = t.drop (i + 1) := by
    rw [hmid_def, hpost_def]
    have hdd : t.drop (j + 1) = (t.drop (i + 1)).drop (j - i) := by
      rw [List.drop_drop]
      congr 1
      omega
    rw [hdd, List.take_append_drop]
  have ht : pre ++ mid ++ post = t := by
    rw [List.append_assoc, hms, hpre_def, List.take_append_drop]
  have hlpre : pre.length = i + 1 := by
    rw [hpre_def, List.length_take]
    exact min_eq_left (by omega)
  have hlmid : mid.length = j - i := by
    rw [hmid_def, List.length_take, List.length_drop]
    exact min_eq_left (by omega)
  have hpre_ne : pre ≠ [] := List.ne_nil_of_length_pos (by rw [hlpre]; omega)
  have hmid_ne : mid ≠ [] := List.ne_nil_of_length_pos (by rw [hlmid]; omega)
  have hmrev_ne : mid.reverse ≠ [] :=
    List.ne_nil_of_length_pos (by rw [List.length_reverse, hlmid]; omega)
  have e5 : pre.head? = some (t.getD 0 0) := by
    rw [hpre_def, List.head?_eq_getElem?, List.getElem?_take, if_pos (by omega)]
    exact getElem?_eq_some_getD t 0 (by omega)
  have e1 : pre.getLast? = some (t.getD i 0) := by
    rw [List.getLast?_eq_getElem?, hlpre, Nat.add_sub_cancel, hpre_def,
      List.getElem?_take, if_pos (by omega)]
    exact getElem?_eq_some_getD t i (by omega)
  have e2 : mid.head? = some (t.getD (i + 1) 0) := by
    rw [hmid_def, List.head?_eq_getElem?, List.getElem?_take, if_pos (by omega),
      List.getElem?_drop, Nat.add_zero]
    exact getElem?_eq_some_getD t (i + 1) hi1
  have e3 : mid.getLast? = some (t.getD j 0) := by
    rw [List.getLast?_eq_getElem?, hlmid, hmid_def, List.getElem?_take,
      if_pos (by omega), List.getElem?_drop]
    have hidx : i + 1 + (j - i - 1) = j := by omega
    rw [hidx]
    exact getElem?_eq_some_getD t j hj
  have er_h : mid.reverse.head? = some (t.getD j 0) := by
    rw [List.head?_reverse, e3]
  have er_l : mid.reverse.getLast? = some (t.getD (i + 1) 0) := by
    rw [List.getLast?_reverse, e2]
  have er_s : sumaConsecutiva m mid.reverse = sumaConsecutiva m mid :=
    sumaConsecutiva_reverse m hsym mid
  have hsw : twoOptSwap t i j = pre ++ mid.reverse ++ post := by
    rw [hpre_def, hmid_def, hpost_def]
    rfl
  have hT := calcular_tres_segmentos m pre mid post hpre_ne hmid_ne
  rw [ht] at hT
  have hS := calcular_tres_segmentos m pre mid.reverse post hpre_ne hmrev_ne
  rw [← hsw] at hS
  by_cases hp : post = []
  · have hlen1 : t.length = j + 1 := by
      rw [hpost_def] at hp
      have hle : t.length ≤ j + 1 := List.drop_eq_nil_iff.mp hp
      omega
    have hmod : (j + 1) % t.length = 0 := by rw [hlen1, Nat.mod_self]
    rw [hT, hS, hp, if_pos rfl, if_pos rfl, e1, e2, e3, er_h, er_l, er_s, e5, hmod]
    have h0a : enlace m (some (t.getD j 0)) (([] : List ℕ)).head? = 0 := rfl
    have h0b : enlace m (some (t.getD (i + 1) 0)) (([] : List ℕ)).head? = 0 := rfl
    have h1 : sumaConsecutiva m [] = 0 := rfl
    rw [h0a, h0b, h1]
    simp only [enlace_some_some]
    ring
  · have hj1 : j + 1 < t.length := by
      rcases Nat.lt_or_ge (j + 1) t.length with h | h
      · exact h
      · exact absurd (by rw [hpost_def]; exact List.drop_eq_nil_iff.mpr h) hp
    have hmod : (j + 1) % t.length = j + 1 := Nat.mod_eq_of_lt hj1
    have e4 : post.head? = some (t.getD (j + 1) 0) := by
      rw [hpost_def, List.head?_eq_getElem?, List.getElem?_drop, Nat.add_zero]
      exact getElem?_eq_some_getD t (j + 1) hj1
    rw [hT, hS, if_neg hp, if_neg hp, e1, e2, e3, er_h, er_l, er_s, e5, e4, hmod]
    simp only [enlace_some_some]
    ring

lemma mejora2Opt_lt (m : ℕ → ℕ → ℚ) (t : List ℕ) (i j : ℕ)
    (h : mejora2Opt m t i j = true) :
    m (t.getD i 0) (t.getD j 0) + m (t.getD (i + 1) 0) (t.getD ((j + 1) % t.length) 0) <
      m (t.getD i 0) (t.getD (i + 1) 0) + m (t.getD j 0) (t.getD ((j + 1) % t.length) 0) := by
  unfold mejora2Opt at h
  exact of_decide_eq_true h

lemma twoOptSwap_length (t : List ℕ) (i j : ℕ)
    (hi1 : i + 1 < t.length) (hij : i + 2 ≤ j) (hj : j < t.length) :
    (twoOptSwap t i j).length = t.length := by
  unfold twoOptSwap
  rw [List.length_append, List.length_append, List.length_reverse,
    List.length_take, List.length_take, List.length_drop, List.length_drop]
  rw [min_eq_left (by omega), min_eq_left (by omega)]
  omega

lemma sweepJ_le (m : ℕ → ℕ → ℚ) (hsym : ∀ i j, m i j = m j i) (len i : ℕ)
    (hi : i < len - 1) :
    ∀ (d j : ℕ) (t : List ℕ) (imp : Bool), len - j ≤ d → t.length = len → i + 2 ≤ j →
      (sweepJ m len i j t imp).1.length = len ∧
      calcularLongitudRuta (sweepJ m len i j t imp).1 m ≤ calcularLongitudRuta t m := by
  intro d
  induction d with
  | zero =>
    intro j t imp hd hlen hij
    rw [sweepJ, dif_neg (by omega : ¬ j < len)]
    exact ⟨hlen, le_refl _⟩
  | succ d ih =>
    intro j t imp hd hlen hij
    rw [sweepJ]
    by_cases hjl : j < len
    · rw [dif_pos hjl]
      cases hm : mejora2Opt m t i j with
      | false =>
        rw [if_neg Bool.false_ne_true]
        exact ih (j + 1) t imp (by omega) hlen (by omega)
      | true =>
        rw [if_pos rfl]
        have hi1 : i + 1 < t.length := by omega
        have hjt : j < t.length := by omega
        have hswlen : (twoOptSwap t i j).length = t.length :=
          twoOptSwap_length t i j hi1 hij hjt
        have hdec : calcularLongitudRuta (twoOptSwap t i j) m <
            calcularLongitudRuta t m := by
          rw [twoOptSwap_delta m hsym t i j hi1 hij hjt]
          have hlt := mejora2Opt_lt m t i j hm
          linarith
        obtain ⟨hl2, hle2⟩ := ih (j + 1) (twoOptSwap t i j) true (by omega)
          (by rw [hswlen, hlen]) (by omega)
        exact ⟨hl2, le_trans hle2 (le_of_lt hdec)⟩
    · rw [dif_neg hjl]
      exact ⟨hlen, le_refl _⟩

lemma sweepI_le (m : ℕ → ℕ → ℚ) (hsym : ∀ i j, m i j = m j i) (len : ℕ) :
    ∀ (d i : ℕ) (t : List ℕ) (imp : Bool), len - 1 - i ≤ d → t.length = len →
      (sweepI m len i t imp).1.length = len ∧
      calcularLongitudRuta (sweepI m len i t imp).1 m ≤ calcularLongitudRuta t m := by
  intro d
  induction d with
  | zero =>
    intro i t imp hd hlen
    rw [sweepI, dif_neg (by omega : ¬ i < len - 1)]
    exact ⟨hlen, le_refl _⟩
  | succ d ih =>
    intro i t imp hd hlen
    rw [sweepI]
    by_cases hil : i < len - 1
    · rw [dif_pos hil]
      obtain ⟨hl1, hle1⟩ := sweepJ_le m hsym len i hil (len - (i + 2)) (i + 2) t imp
        (by omega) hlen (le_refl _)
      obtain ⟨hl2, hle2⟩ := ih (i + 1) (sweepJ m len i (i + 2) t imp).1
        (sweepJ m len i (i + 2) t imp).2 (by omega) hl1
      exact ⟨hl2, le_trans hle2 hle1⟩
    · rw [dif_neg hil]
      exact ⟨hlen, le_refl _⟩

lemma run2OptLoop_le (m : ℕ → ℕ → ℚ) (hsym : ∀ i j, m i j = m j i) :
    ∀ (fuel : ℕ) (t : List ℕ),
      calcularLongitudRuta (run2OptLoop m fuel t) m ≤ calcularLongitudRuta t m := by
  intro fuel
  induction fuel with
  | zero => intro t; exact le_refl _
  | succ fuel ih =>
    intro t
    obtain ⟨hl, hle⟩ := sweepI_le m hsym t.length (t.length - 1 - 0) 0 t false
      (le_refl _) rfl
    show calcularLongitudRuta
      (if (sweepI m t.length 0 t false).2 then
        run2OptLoop m fuel (sweepI m t.length 0 t false).1
      else (sweepI m t.length 0 t false).1) m ≤ _
    by_cases hr : (sweepI m t.length 0 t false).2
    · rw [if_pos hr]
      exact le_trans (ih _) hle
    · rw [if_neg hr]
      exact hle

/-- C6 (amended): for every symmetric distance matrix (the domain's matrices
are symmetric by construction), run2Opt never returns a tour longer than its
input, for every sweep fuel — in particular for the fuel at which the source's
while-loop terminates; without symmetry the property fails (see the
counterexample). -/
theorem run2Opt_no_aumenta_con_simetria (fuel : ℕ) (tour : List ℕ) (m : ℕ → ℕ → ℚ)
    (hsym : ∀ i j, m i j = m j i) :
    (run2Opt fuel tour m).length ≤ calcularLongitudRuta tour m := by
  show calcularLongitudRuta (run2OptLoop m fuel tour) m ≤ _
  exact run2OptLoop_le m hsym fuel tour

/-- Witness for the C6 amended theorem on a concrete symmetric matrix. -/
theorem run2Opt_no_aumenta_con_simetria_witness :
    (∀ i j, (fun a b : ℕ => ((a + b : ℕ) : ℚ)) i j = (fun a b : ℕ => ((a + b : ℕ) : ℚ)) j i) ∧
    (run2Opt 3 [0, 1, 2] (fun a b : ℕ => ((a + b : ℕ) : ℚ))).length ≤
      calcularLongitudRuta [0, 1, 2] (fun a b : ℕ => ((a + b : ℕ) : ℚ)) :=
  ⟨fun i j => by show ((i + j : ℕ) : ℚ) = ((j + i : ℕ) : ℚ); rw [Nat.add_comm],
   run2Opt_no_aumenta_con_simetria 3 [0, 1, 2] (fun a b : ℕ => ((a + b : ℕ) : ℚ))
     (fun i j => by show ((i + j : ℕ) : ℚ) = ((j + i : ℕ) : ℚ); rw [Nat.add_comm])⟩

lemma sweepJ_eq_foldl (m : ℕ → ℕ → ℚ) (len i : ℕ) :
    ∀ (d j : ℕ) (t : List ℕ) (imp : Bool), len - j ≤ d →
      sweepJ m len i j t imp =
        ((List.range' j (len - j)).map (fun jj => (i, jj))).foldl
          (fun acc pr =>
            if mejora2Opt m acc.1 pr.1 pr.2 then (twoOptSwap acc.1 pr.1 pr.2, true) else acc)
          (t, imp) := by
  intro d
  induction d with
  | zero =>
    intro j t imp hd
    rw [sweepJ, dif_neg (by omega : ¬ j < len), (by omega : len - j = 0)]
    rfl
  | succ d ih =>
    intro j t imp hd
    rw [sweepJ]
    by_cases hjl : j < len
    · rw [dif_pos hjl, (by omega : len - j = (len - (j + 1)) + 1), List.range'_succ]
      cases hm : mejora2Opt m t i j with
      | false =>
        rw [if_neg Bool.false_ne_true]
        rw [ih (j + 1) t imp (by omega)]
        show _ = List.foldl _ (if mejora2Opt m t i j = true then _ else (t, imp)) _
        rw [hm, if_neg Bool.false_ne_true]
      | true =>
        rw [if_pos rfl]
        rw [ih (j + 1) (twoOptSwap t i j) true (by omega)]
        show _ = List.foldl _ (if mejora2Opt m t i j = true then (twoOptSwap t i j, true) else _) _
        rw [hm, if_pos rfl]
    · rw [dif_neg hjl, (by omega : len - j = 0)]
      rfl

lemma sweepI_eq_foldl (m : ℕ → ℕ → ℚ) (len : ℕ) :
    ∀ (d i : ℕ) (t : List ℕ) (imp : Bool), len - 1 - i ≤ d →
      sweepI m len i t imp =
        ((List.range' i (len - 1 - i)).flatMap
          (fun ii => (List.range' (ii + 2) (len - (ii + 2))).map (fun jj => (ii, jj)))).foldl
          (fun acc pr =>
            if mejora2Opt m acc.1 pr.1 pr.2 then (twoOptSwap acc.1 pr.1 pr.2, true) else acc)
          (t, imp) := by
  intro d
  induction d with
  | zero =>
    intro i t imp hd
    rw [sweepI, dif_neg (by omega : ¬ i < len - 1), (by omega : len - 1 - i = 0),
      List.range'_zero, List.flatMap_nil]
    rfl
  | succ d ih =>
    intro i t imp hd
    rw [sweepI]
    by_cases hil : i < len - 1
    · rw [dif_pos hil, (by omega : len - 1 - i = (len - 1 - (i + 1)) + 1),
        List.range'_succ, List.flatMap_cons, List.foldl_append]
      show sweepI m len (i + 1) (sweepJ m len i (i + 2) t imp).1
          (sweepJ m len i (i + 2) t imp).2 = _
      rw [← sweepJ_eq_foldl m len i (len - (i + 2)) (i + 2) t imp (le_refl _)]
      rw [ih (i + 1) (sweepJ m len i (i + 2) t imp).1 (sweepJ m len i (i + 2) t imp).2
        (by omega)]
    · rw [dif_neg hil, (by omega : len - 1 - i = 0), List.range'_zero, List.flatMap_nil]
      rfl

lemma pasadaContinua_eq_sweepI (m : ℕ → ℕ → ℚ) (len : ℕ) (t : List ℕ) (imp : Bool) :
    pasadaContinua m len t imp = sweepI m len 0 t imp := by
  unfold pasadaContinua paresLex
  rw [List.range_eq_range',
    sweepI_eq_foldl m len (len - 1) 0 t imp (by omega), Nat.sub_zero]

lemma run2OptContinua_eq_loop (m : ℕ → ℕ → ℚ) :
    ∀ (fuel : ℕ) (t : List ℕ), run2OptContinua m fuel t = run2OptLoop m fuel t := by
  intro fuel
  induction fuel with
  | zero => intro t; rfl
  | succ fuel ih =>
    intro t
    show (if (pasadaContinua m t.length t false).2 then
        run2OptContinua m fuel (pasadaContinua m t.length t false).1
      else (pasadaContinua m t.length t false).1) =
      (if (sweepI m t.length 0 t false).2 then
        run2OptLoop m fuel (sweepI m t.length 0 t false).1
      else (sweepI m t.length 0 t false).1)
    rw [pasadaContinua_eq_sweepI]
    by_cases hr : (sweepI m t.length 0 t false).2
    · rw [if_pos hr, if_pos hr, ih]
    · rw [if_neg hr, if_neg hr]

/-- C7 (amended): run2Opt returns the same tour as a reference
first-improvement 2-opt procedure that, at each improving pair in
lexicographic sweep order, applies the segment reversal and CONTINUES the
current sweep on the modified tour (restarting only after a full sweep that
made at least one change), stopping when a full sweep finds no improving pair
— not the spec's restart-from-the-beginning policy (see the counterexample). -/
theorem run2Opt_eq_referencia_continua (fuel : ℕ) (tour : List ℕ) (m : ℕ → ℕ → ℚ) :
    (run2Opt fuel tour m).tour = run2OptContinua m fuel tour ∧
    (run2Opt fuel tour m).length =
      calcularLongitudRuta (run2OptContinua m fuel tour) m := by
  have h := run2OptContinua_eq_loop m fuel tour
  constructor
  · show run2OptLoop m fuel tour = _
    rw [h]
  · show calcularLongitudRuta (run2OptLoop m fuel tour) m = _
    rw [h]

lemma toFinset_list_range (n : ℕ) : (List.range n).toFinset = Finset.range n := by
  ext x
  rw [List.mem_toFinset, List.mem_range, Finset.mem_range]

lemma getLastD_mem_of_ne_nil {α : Type} [DecidableEq α] (l : List α) (d : α) (h : l ≠ []) :
    l.getLastD d ∈ l := by
  cases l with
  | nil => exact absurd rfl h
  | cons p rest =>
    rw [List.getLastD_cons]
    have h1 : (p :: rest).getLast? = some (rest.getLastD p) := getLast?_eq_getLastD p rest
    have h2 : rest.getLastD p ∈ (p :: rest).getLast? := by rw [Option.mem_def, h1]
    obtain ⟨hne2, heq⟩ := List.mem_getLast?_eq_getLast h2
    rw [heq]
    exact List.getLast_mem hne2

lemma candidatos_nodeIndex (ant : Hormiga) (pher : SquareMat) (dist : ℕ → ℕ → ℚ)
    (alpha beta : ℚ) (n : ℕ) (mpow : ℚ → ℚ → ℚ) :
    ∀ pr ∈ candidatos ant pher dist alpha beta n mpow,
      pr.nodeIndex ∉ ant.visited ∧ pr.nodeIndex < n := by
  intro pr hpr
  unfold candidatos at hpr
  rw [List.mem_filterMap] at hpr
  obtain ⟨j, hj, hf⟩ := hpr
  rw [List.mem_range] at hj
  by_cases hv : j ∈ ant.visited
  · rw [if_pos hv] at hf
    exact absurd hf (by simp)
  · rw [if_neg hv] at hf
    dsimp only at hf
    by_cases hd : dist ant.currentNode j ≤ 0
    · rw [if_pos hd] at hf
      exact absurd hf (by simp)
    · rw [if_neg hd] at hf
      have hni : pr.nodeIndex = j := by rw [← Option.some.inj hf]
      rw [hni]
      exact ⟨hv, hj⟩

lemma ruleta_mem (r : ℚ) :
    ∀ (l : List ProbabilityInfo) (c : ℚ) (x : ℕ),
      ruleta r l c = some x → x ∈ l.map (fun p => p.nodeIndex) := by
  intro l
  induction l with
  | nil => intro c x h; exact absurd h (by rw [ruleta]; simp)
  | cons p rest ih =>
    intro c x h
    rw [ruleta] at h
    by_cases hr : r ≤ c + p.probability
    · rw [if_pos hr] at h
      rw [List.map_cons, Option.some.inj h]
      exact List.mem_cons_self _ _
    · rw [if_neg hr] at h
      rw [List.map_cons]
      exact List.mem_cons_of_mem _ (ih _ x h)

lemma mem_noVisitados (ant : Hormiga) (n : ℕ) (x : ℕ) (hx : x ∈ noVisitados ant n) :
    x ∉ ant.visited ∧ x < n := by
  unfold noVisitados at hx
  rw [List.mem_filter, List.mem_range] at hx
  refine ⟨?_, hx.1⟩
  have := hx.2
  simpa using this

lemma seleccionar_elige_no_visitado (ant : Hormiga) (pher : SquareMat)
    (dist : ℕ → ℕ → ℚ) (alpha beta : ℚ) (n : ℕ) (mpow : ℚ → ℚ → ℚ)
    (rand : ℕ → ℚ) (k : ℕ)
    (hnv : noVisitados ant n ≠ []) (hr0 : 0 ≤ rand k) (hr1 : rand k < 1) :
    ∃ c, (seleccionarSiguienteNodo ant pher dist alpha beta n mpow rand k).1 = some c ∧
      c ∉ ant.visited ∧ c < n := by
  unfold seleccionarSiguienteNodo
  dsimp only
  by_cases hfb : candidatos ant pher dist alpha beta n mpow = [] ∨
      ((candidatos ant pher dist alpha beta n mpow).map (fun p => p.probability)).sum = 0
  · rw [if_pos hfb, if_neg hnv]
    have hlen : 0 < (noVisitados ant n).length := List.length_pos.mpr hnv
    have hup : (⌊rand k * (noVisitados ant n).length⌋ : ℤ) <
        ((noVisitados ant n).length : ℤ) := by
      rw [Int.floor_lt]
      push_cast
      exact mul_lt_of_lt_one_left (by exact_mod_cast hlen) hr1
    have hlo : (0 : ℤ) ≤ ⌊rand k * (noVisitados ant n).length⌋ :=
      Int.floor_nonneg.mpr (mul_nonneg hr0 (by positivity))
    have hidx : (⌊rand k * ((noVisitados ant n).length : ℚ)⌋).toNat <
        (noVisitados ant n).length := by omega
    refine ⟨(noVisitados ant n).getD (⌊rand k * ((noVisitados ant n).length : ℚ)⌋).toNat 0,
      rfl, ?_⟩
    have hmem : (noVisitados ant n).getD
        (⌊rand k * ((noVisitados ant n).length : ℚ)⌋).toNat 0 ∈ noVisitados ant n := by
      rw [List.getD_eq_getElem _ _ hidx]
      exact List.getElem_mem hidx
    exact mem_noVisitados ant n _ hmem
  · rw [if_neg hfb]
    have hprobs_ne : candidatos ant pher dist alpha beta n mpow ≠ [] := by
      intro h
      exact hfb (Or.inl h)
    have hmap_ni :
        ((candidatos ant pher dist alpha beta n mpow).map (fun p : ProbabilityInfo =>
          { p with probability := p.probability /
            ((candidatos ant pher dist alpha beta n mpow).map
              (fun p : ProbabilityInfo => p.probability)).sum })).map (fun p => p.nodeIndex) =
        (candidatos ant pher dist alpha beta n mpow).map (fun p => p.nodeIndex) := by
      rw [List.map_map]
      rfl
    have hof : ∀ x, x ∈ ((candidatos ant pher dist alpha beta n mpow).map (fun p : ProbabilityInfo =>
          { p with probability := p.probability /
            ((candidatos ant pher dist alpha beta n mpow).map
              (fun p : ProbabilityInfo => p.probability)).sum })).map (fun p => p.nodeIndex) →
        x ∉ ant.visited ∧ x < n := by
      intro x hx
      rw [hmap_ni, List.mem_map] at hx
      obtain ⟨pr, hpr, hpx⟩ := hx
      rw [← hpx]
      exact candidatos_nodeIndex ant pher dist alpha beta n mpow pr hpr
    cases hrl : ruleta (rand k)
        ((candidatos ant pher dist alpha beta n mpow).map (fun p : ProbabilityInfo =>
          { p with probability := p.probability /
            ((candidatos ant pher dist alpha beta n mpow).map
              (fun p : ProbabilityInfo => p.probability)).sum })) 0 with
    | some c =>
      refine ⟨c, rfl, hof c (ruleta_mem (rand k) _ 0 c hrl)⟩
    | none =>
      have hne2 : (candidatos ant pher dist alpha beta n mpow).map (fun p : ProbabilityInfo =>
          { p with probability := p.probability /
            ((candidatos ant pher dist alpha beta n mpow).map
              (fun p : ProbabilityInfo => p.probability)).sum }) ≠ [] := by
        intro h
        exact hprobs_ne (List.map_eq_nil_iff.mp h)
      refine ⟨_, rfl, ?_⟩
      apply hof
      rw [List.mem_map]
      exact ⟨_, getLastD_mem_of_ne_nil _ _ hne2, rfl⟩

lemma construirTour_perm (pher : SquareMat) (dist : ℕ → ℕ → ℚ) (alpha beta : ℚ)
    (n : ℕ) (mpow : ℚ → ℚ → ℚ) (rand : ℕ → ℚ)
    (hrand : ∀ k', 0 ≤ rand k' ∧ rand k' < 1) :
    ∀ (fuel : ℕ) (ant : Hormiga) (k : ℕ),
      ant.tour.Nodup → ant.tour.toFinset = ant.visited →
      ant.visited ⊆ Finset.range n → n ≤ ant.visited.card + fuel →
      ((construirTour pher dist alpha beta n mpow rand fuel ant k).1.tour).Perm
        (List.range n) := by
  intro fuel
  induction fuel with
  | zero =>
    intro ant k hnd htf hsub hcard
    have hv : ant.visited = Finset.range n :=
      Finset.eq_of_subset_of_card_le hsub (by rw [Finset.card_range]; omega)
    rw [construirTour]
    refine List.perm_of_nodup_nodup_toFinset_eq hnd (List.nodup_range n) ?_
    rw [htf, hv, toFinset_list_range]
  | succ fuel ih =>
    intro ant k hnd htf hsub hcard
    rw [construirTour]
    by_cases hc : ant.visited.card < n
    · rw [if_pos hc]
      have hnv : noVisitados ant n ≠ [] := by
        have hex : ∃ j, j < n ∧ j ∉ ant.visited := by
          by_contra hno
          push_neg at hno
          have hsub2 : Finset.range n ⊆ ant.visited := by
            intro x hx
            exact hno x (Finset.mem_range.mp hx)
          have := Finset.card_le_card hsub2
          rw [Finset.card_range] at this
          omega
        obtain ⟨j, hj1, hj2⟩ := hex
        intro hemp
        have : j ∈ noVisitados ant n := by
          unfold noVisitados
          rw [List.mem_filter, List.mem_range]
          exact ⟨hj1, by simpa using hj2⟩
        rw [hemp] at this
        exact absurd this (List.not_mem_nil j)
      obtain ⟨c, hc1, hc2, hc3⟩ := seleccionar_elige_no_visitado ant pher dist alpha beta
        n mpow rand k hnv (hrand k).1 (hrand k).2
      have hsel : seleccionarSiguienteNodo ant pher dist alpha beta n mpow rand k =
          (some c, (seleccionarSiguienteNodo ant pher dist alpha beta n mpow rand k).2.1,
            (seleccionarSiguienteNodo ant pher dist alpha beta n mpow rand k).2.2) := by
        rw [← hc1]
      rw [hsel]
      have hcnt : c ∉ ant.tour := by
        intro hmem
        exact hc2 (htf ▸ List.mem_toFinset.mpr hmem)
      apply ih
      · rw [List.nodup_append]
        exact ⟨hnd, List.nodup_singleton c, by
          intro x hx hx2
          rw [List.mem_singleton] at hx2
          exact hcnt (hx2 ▸ hx)⟩
      · show (ant.tour ++ [c]).toFinset = insert c ant.visited
        rw [List.toFinset_append, htf]
        ext x
        simp [or_comm]
      · intro x hx
        rcases Finset.mem_insert.mp hx with hx2 | hx2
        · rw [hx2]
          exact Finset.mem_range.mpr hc3
        · exact hsub hx2
      · rw [Finset.card_insert_of_not_mem hc2]
        omega
    · rw [if_neg hc]
      have hv : ant.visited = Finset.range n :=
        Finset.eq_of_subset_of_card_le hsub (by rw [Finset.card_range]; omega)
      refine List.perm_of_nodup_nodup_toFinset_eq hnd (List.nodup_range n) ?_
      rw [htf, hv, toFinset_list_range]

/-- C10: whenever unvisited nodes remain (and the random draw is in [0,1), as
Math.random guarantees), seleccionarSiguienteNodo returns some unvisited
in-range node — never the -1 sentinel, never a visited node — so the 'stuck'
break branch of the construction loop in ejecutarACO is unreachable and the
finished tour of an agent started at node 0 (fuel n covers the while-loop) is
a permutation of 0..n-1. -/
theorem seleccionar_sin_atasco_y_tour_permutacion :
    (∀ (ant : Hormiga) (pher : SquareMat) (dist : ℕ → ℕ → ℚ) (alpha beta : ℚ)
       (n : ℕ) (mpow : ℚ → ℚ → ℚ) (rand : ℕ → ℚ) (k : ℕ),
       noVisitados ant n ≠ [] → 0 ≤ rand k → rand k < 1 →
       ∃ c, (seleccionarSiguienteNodo ant pher dist alpha beta n mpow rand k).1 = some c ∧
         c ∉ ant.visited ∧ c < n) ∧
    (∀ (n : ℕ) (pher : SquareMat) (dist : ℕ → ℕ → ℚ) (alpha beta : ℚ)
       (mpow : ℚ → ℚ → ℚ) (rand : ℕ → ℚ) (k : ℕ),
       1 ≤ n → (∀ k', 0 ≤ rand k' ∧ rand k' < 1) →
       ((construirTour pher dist alpha beta n mpow rand n
          ⟨[0], {0}, 0, 0⟩ k).1.tour).Perm (List.range n)) := by
  constructor
  · intro ant pher dist alpha beta n mpow rand k hnv hr0 hr1
    exact seleccionar_elige_no_visitado ant pher dist alpha beta n mpow rand k hnv hr0 hr1
  · intro n pher dist alpha beta mpow rand k hn hrand
    apply construirTour_perm pher dist alpha beta n mpow rand hrand n ⟨[0], {0}, 0, 0⟩ k
    · exact List.nodup_singleton 0
    · rfl
    · intro x hx
      have : x = 0 := Finset.mem_singleton.mp hx
      rw [this]
      exact Finset.mem_range.mpr (by omega)
    · show n ≤ ({0} : Finset ℕ).card + n
      rw [Finset.card_singleton]
      omega

/-- Witness for the C10 theorem at a concrete 2-node instance. -/
theorem seleccionar_sin_atasco_y_tour_permutacion_witness :
    (noVisitados ⟨[0], {0}, 0, 0⟩ 2 ≠ [] ∧ (0 : ℚ) ≤ (1 : ℚ)/2 ∧ (1 : ℚ)/2 < 1 ∧
      (∃ c, (seleccionarSiguienteNodo ⟨[0], {0}, 0, 0⟩ (inicializarFeromonas 2 1 1)
        (dGet [[0, 1], [1, 0]]) 1 1 2 (fun _ _ => 1) (fun _ => (1 : ℚ)/2) 0).1 = some c ∧
        c ∉ (⟨[0], {0}, 0, 0⟩ : Hormiga).visited ∧ c < 2)) ∧
    ((1 : ℕ) ≤ 2 ∧ (∀ k', 0 ≤ (fun _ : ℕ => (1 : ℚ)/2) k' ∧
        (fun _ : ℕ => (1 : ℚ)/2) k' < 1) ∧
      ((construirTour (inicializarFeromonas 2 1 1) (dGet [[0, 1], [1, 0]]) 1 1 2
        (fun _ _ => 1) (fun _ => (1 : ℚ)/2) 2 ⟨[0], {0}, 0, 0⟩ 0).1.tour).Perm
        (List.range 2)) :=
  ⟨⟨of_decide_eq_true (by with_unfolding_all rfl),
    of_decide_eq_true (by with_unfolding_all rfl),
    of_decide_eq_true (by with_unfolding_all rfl),
    seleccionar_sin_atasco_y_tour_permutacion.1 ⟨[0], {0}, 0, 0⟩
      (inicializarFeromonas 2 1 1) (dGet [[0, 1], [1, 0]]) 1 1 2 (fun _ _ => 1)
      (fun _ => (1 : ℚ)/2) 0
      (of_decide_eq_true (by with_unfolding_all rfl))
      (of_decide_eq_true (by with_unfolding_all rfl))
      (of_decide_eq_true (by with_unfolding_all rfl))⟩,
   ⟨by omega,
    fun k' => ⟨of_decide_eq_true (by with_unfolding_all rfl),
      of_decide_eq_true (by with_unfolding_all rfl)⟩,
    seleccionar_sin_atasco_y_tour_permutacion.2 2 (inicializarFeromonas 2 1 1)
      (dGet [[0, 1], [1, 0]]) 1 1 (fun _ _ => 1) (fun _ => (1 : ℚ)/2) 0 (by omega)
      (fun k' => ⟨of_decide_eq_true (by with_unfolding_all rfl),
        of_decide_eq_true (by with_unfolding_all rfl)⟩)⟩⟩

/-- Relation the run loop maintains between the global best and the recorded
series: before the first iteration both are empty, afterwards the best's
length is an element of the series and a lower bound of it. -/
def invMejor : Option Solution → List ℚ → Prop
  | none, series => series = []
  | some s, series => s.length ∈ series ∧ ∀ x ∈ series, s.length ≤ x

lemma invMejor_step (gb : Option Solution) (series : List ℚ) (iterBest : Solution) :
    invMejor gb series →
    invMejor (match gb with
              | none => some iterBest
              | some g => if iterBest.length < g.length then some iterBest else some g)
      (series ++ [iterBest.length]) := by
  intro h
  cases gb with
  | none =>
    have hs : series = [] := h
    subst hs
    exact ⟨List.mem_singleton_self _, by
      intro x hx
      rw [List.mem_singleton.mp hx]⟩
  | some g =>
    obtain ⟨h1, h2⟩ := h
    by_cases hlt : iterBest.length < g.length
    · show invMejor (if iterBest.length < g.length then some iterBest else some g) _
      rw [if_pos hlt]
      refine ⟨List.mem_append_right _ (List.mem_singleton_self _), ?_⟩
      intro x hx
      rcases List.mem_append.mp hx with hx2 | hx2
      · exact le_of_lt (lt_of_lt_of_le hlt (h2 x hx2))
      · rw [List.mem_singleton.mp hx2]
    · show invMejor (if iterBest.length < g.length then some iterBest else some g) _
      rw [if_neg hlt]
      refine ⟨List.mem_append_left _ h1, ?_⟩
      intro x hx
      rcases List.mem_append.mp hx with hx2 | hx2
      · exact h2 x hx2
      · rw [List.mem_singleton.mp hx2]
        exact le_of_not_lt hlt

lemma bucleACO_inv (dist : ℕ → ℕ → ℚ) (p : ACOParams) (mpow : ℚ → ℚ → ℚ)
    (rand : ℕ → ℚ) (cap : Bool) (n : ℕ) :
    ∀ (fuel iter : ℕ) (pher : SquareMat) (gb : Option Solution) (series : List ℚ)
      (k : ℕ), invMejor gb series →
      invMejor
        (bucleACO dist p mpow rand (fun _ => false) cap n fuel iter pher gb series k).best
        (bucleACO dist p mpow rand (fun _ => false) cap n fuel iter pher gb series k).series := by
  intro fuel
  induction fuel with
  | zero =>
    intro iter pher gb series k h
    rw [bucleACO]
    exact h
  | succ fuel ih =>
    intro iter pher gb series k h
    rw [bucleACO]
    rw [if_neg (by simp : ¬ ((fun _ : ℕ => false) iter && !cap) = true)]
    exact ih _ _ _ _ _ (invMejor_step gb series _ h)

lemma bucleACO_some (dist : ℕ → ℕ → ℚ) (p : ACOParams) (mpow : ℚ → ℚ → ℚ)
    (rand : ℕ → ℚ) (cap : Bool) (n : ℕ) :
    ∀ (fuel iter : ℕ) (pher : SquareMat) (gb : Option Solution) (series : List ℚ)
      (k : ℕ), (gb ≠ none ∨ 1 ≤ fuel) →
      (bucleACO dist p mpow rand (fun _ => false) cap n fuel iter pher gb series k).best
        ≠ none := by
  intro fuel
  induction fuel with
  | zero =>
    intro iter pher gb series k h
    rw [bucleACO]
    rcases h with h | h
    · exact h
    · omega
  | succ fuel ih =>
    intro iter pher gb series k h
    rw [bucleACO]
    rw [if_neg (by simp : ¬ ((fun _ : ℕ => false) iter && !cap) = true)]
    apply ih
    left
    cases gb with
    | none => simp
    | some g =>
      show (if _ then some _ else some g) ≠ none
      split <;> simp

/-- C1: for a non-empty distance matrix, at least one agent and at least one
iteration, an uninterrupted (never paused) run of ejecutarACO returns a global
best Solution whose length is the minimum of the recorded best-per-iteration
series — it is an element of the series and a lower bound of it; each
iteration's recorded entry is the length of the first solution of minimal
length among that iteration's agent solutions (mejorDeIteracion). -/
theorem ejecutarACO_mejor_es_minimo_serie
    (dm : List (List ℚ)) (p : ACOParams) (mpow : ℚ → ℚ → ℚ) (rand : ℕ → ℚ)
    (cap : Bool) (hdm : dm ≠ []) (hham : 1 ≤ p.numHormigas) (hit : 1 ≤ p.iteraciones) :
    ∃ s, (ejecutarACO dm p mpow rand (fun _ => false) cap).best = some s ∧
      s.length ∈ (ejecutarACO dm p mpow rand (fun _ => false) cap).series ∧
      ∀ x ∈ (ejecutarACO dm p mpow rand (fun _ => false) cap).series, s.length ≤ x := by
  unfold ejecutarACO
  rw [if_neg (by simpa using hdm)]
  have hinv := bucleACO_inv (dGet dm) p mpow rand cap dm.length p.iteraciones 0
    (inicializarFeromonas dm.length 1 p.minPheromone) none [] 0 rfl
  have hsome := bucleACO_some (dGet dm) p mpow rand cap dm.length p.iteraciones 0
    (inicializarFeromonas dm.length 1 p.minPheromone) none [] 0 (Or.inr hit)
  cases hbest : (bucleACO (dGet dm) p mpow rand (fun _ => false) cap dm.length
      p.iteraciones 0 (inicializarFeromonas dm.length 1 p.minPheromone) none [] 0).best with
  | none => exact absurd hbest hsome
  | some s =>
    rw [hbest] at hinv
    exact ⟨s, rfl, hinv.1, hinv.2⟩

/-- Witness for the C1 theorem at a concrete two-node run. -/
theorem ejecutarACO_mejor_es_minimo_serie_witness :
    (([[0, 1], [1, 0]] : List (List ℚ)) ≠ [] ∧
      1 ≤ (⟨1, 1, 1, 1, 1/2, 1, 1/1000000⟩ : ACOParams).numHormigas ∧
      1 ≤ (⟨1, 1, 1, 1, 1/2, 1, 1/1000000⟩ : ACOParams).iteraciones) ∧
    (∃ s, (ejecutarACO [[0, 1], [1, 0]] ⟨1, 1, 1, 1, 1/2, 1, 1/1000000⟩
        (fun _ _ => 1) (fun _ => (1 : ℚ)/10) (fun _ => false) false).best = some s ∧
      s.length ∈ (ejecutarACO [[0, 1], [1, 0]] ⟨1, 1, 1, 1, 1/2, 1, 1/1000000⟩
        (fun _ _ => 1) (fun _ => (1 : ℚ)/10) (fun _ => false) false).series ∧
      ∀ x ∈ (ejecutarACO [[0, 1], [1, 0]] ⟨1, 1, 1, 1, 1/2, 1, 1/1000000⟩
        (fun _ _ => 1) (fun _ => (1 : ℚ)/10) (fun _ => false) false).series,
        s.length ≤ x) :=
  ⟨⟨of_decide_eq_true (by with_unfolding_all rfl),
    of_decide_eq_true (by with_unfolding_all rfl),
    of_decide_eq_true (by with_unfolding_all rfl)⟩,
   ejecutarACO_mejor_es_minimo_serie [[0, 1], [1, 0]] ⟨1, 1, 1, 1, 1/2, 1, 1/1000000⟩
     (fun _ _ => 1) (fun _ => (1 : ℚ)/10) false
     (of_decide_eq_true (by with_unfolding_all rfl))
     (of_decide_eq_true (by with_unfolding_all rfl))
     (of_decide_eq_true (by with_unfolding_all rfl))⟩
